import Mathlib

/-!
Verification of the sdm chunked-download engine.

Shallow embedding of `src/main.go` (package `main` of SojebSikder/sdm).
Go `int` values are modelled as `Int`; Go's `/` on `int` truncates toward
zero, which is `Int.tdiv`.  Network and file-system interaction is
modelled by an explicit environment (`Env`) describing the responses the
outside world would give, and an effect trace (`List Effect`) recording
the calls the code makes, in program order (the chunk goroutines are laid
out in launch order; none of the verified properties depends on their
interleaving).
-/

namespace SDM

/-- Retry limit `maxRetries`, `main.go` line 19. -/
def maxRetries : Nat := 3

/-- Backoff `retryBackoff` in seconds, `main.go` line 20 (`2 * time.Second`). -/
def retryBackoff : Nat := 2

/-- Constant `MB` of `calculateWorkers`, `main.go` line 287. -/
def MB : Int := 1024 * 1024

/-- Constant `GB` of `calculateWorkers`, `main.go` line 288. -/
def GB : Int := 1024 * MB

/-- Function `calculateWorkers`, `main.go` lines 285-301: size-based worker heuristic. -/
def calculateWorkers (size : Int) : Int :=
  if size < 5 * MB then 1
  else if size < 100 * MB then 4
  else if size < 1 * GB then 8
  else 16

/-- Worker-count resolution of `downloadFile`, `main.go` lines 124-127:
`workers := calculateWorkers(size); if workersOverride > 0 { workers = workersOverride }`. -/
def resolveWorkers (size workersOverride : Int) : Int :=
  if workersOverride > 0 then workersOverride else calculateWorkers size

/-- Chunk plan of `downloadFile`, `main.go` lines 153-162:
`partSize := size / workers`; chunk `i` is `start := i*partSize`,
`end := start + partSize - 1`, except the last chunk (`i == workers-1`)
whose end is `size - 1`.  The `for i := 0; i < workers; i++` loop runs
`workers.toNat` times. -/
def chunkOf (size workers : Int) (i : Nat) : Int × Int :=
  let partSize := Int.tdiv size workers
  let start : Int := (i : Int) * partSize
  let e : Int := if (i : Int) = workers - 1 then size - 1 else start + partSize - 1
  (start, e)

/-- The full chunk plan: the loop `for i := 0; i < workers; i++` evaluates
`chunkOf` at `i = 0, …, workers-1`. -/
def chunkPlan (size workers : Int) : List (Int × Int) :=
  (List.range workers.toNat).map (chunkOf size workers)

/-- Membership: `j` lies in the inclusive byte range `c.1 ≤ j ≤ c.2`. -/
def memRange (c : Int × Int) (j : Int) : Prop := c.1 ≤ j ∧ j ≤ c.2

instance (c : Int × Int) (j : Int) : Decidable (memRange c j) := by
  unfold memRange; infer_instance

/-- Model of Go `strconv.Atoi` digit accumulation over a list of
characters; `none` on an empty list or on any non-digit character. -/
def parseNatDigits (cs : List Char) : Option Nat :=
  if cs.isEmpty then none
  else
    cs.foldl
      (fun acc c =>
        match acc with
        | none => none
        | some n => if c.isDigit then some (10 * n + (c.toNat - 48)) else none)
      (some 0)

/-- Model of Go `strconv.Atoi` (`main.go` line 102): optional sign then
decimal digits; `none` models a parse error.  (Go's 64-bit overflow
rejection is elided; no verified property exercises it.) -/
def atoi (s : String) : Option Int :=
  match s.data with
  | '-' :: rest => (parseNatDigits rest).map fun n => -(n : Int)
  | '+' :: rest => (parseNatDigits rest).map fun n => (n : Int)
  | cs => (parseNatDigits cs).map fun n => (n : Int)

/-- Observable calls made by the engine, in program order. -/
inductive Effect where
  /-- the `http.Head(url)` probe, `main.go` line 88 -/
  | headReq : Effect
  /-- the `bytes=0-1` test GET of `verifyPartialSupport`, line 274 -/
  | probeReq : Effect
  /-- a `downloadPart` GET with header `Range: bytes=s-e`, line 193 -/
  | rangedReq (s e : Int) : Effect
  /-- the unranged GET of `singleDownload`, line 238 -/
  | unrangedReq : Effect
  /-- an `os.Create(output)` call, lines 130 / 248 -/
  | fileCreate : Effect
  /-- a `file.Truncate(n)` call, line 136 -/
  | fileTruncate (n : Int) : Effect
  deriving DecidableEq, Repr

/-- Error results of `downloadFile` / `singleDownload`, mirroring the
`error` values returned in `main.go`. -/
inductive DlErr where
  /-- a transport error from the HTTP client -/
  | transport : DlErr
  /-- the error `server returned status code %d`, lines 95 / 245 -/
  | badStatus (code : Nat) : DlErr
  /-- the error `missing Content-Length header`, line 100 -/
  | missingLength : DlErr
  /-- the error `invalid content length`, line 104 -/
  | invalidLength : DlErr
  /-- the error `error verifying partial download support`, line 115 -/
  | verifyFailed : DlErr
  /-- an `os.Create` failure, lines 131 / 249 -/
  | createFailed : DlErr
  /-- a `file.Truncate` failure, line 137 -/
  | truncateFailed : DlErr
  /-- an `io.Copy` failure, line 264 -/
  | copyFailed : DlErr
  deriving DecidableEq, Repr

/-- The `http.Head` response, `main.go` lines 88-107: status code plus the
two headers the code reads (`Header.Get` returns `""` for a missing
header). -/
structure HeadResp where
  statusCode : Nat
  contentLength : String
  acceptRanges : String

/-- Response to the `bytes=0-1` test GET of `verifyPartialSupport`: the
status code and the `Content-Range` header the server sent. -/
structure ProbeResp where
  statusCode : Nat
  contentRange : String

/-- Environment: what the outside world answers to each call the engine
makes.  `none` for a response models a transport error.  `attemptOk s e k`
tells whether attempt number `k` (0-based) of `downloadPart` on chunk
`[s, e]` succeeds. -/
structure Env where
  headResp : Option HeadResp
  probeResp : Option ProbeResp
  attemptOk : Int → Int → Nat → Bool
  createOk : Bool
  truncateOk : Bool
  singleResp : Option Nat
  copyOk : Bool

/-- Function `verifyPartialSupport`, `main.go` lines 268-283: issues the
`bytes=0-1` test GET and returns whether the status code is 206.  The
`Content-Range` header of the response is never read. -/
def verifyPartialSupport (probeResp : Option ProbeResp) : Option Bool :=
  match probeResp with
  | none => none
  | some p => some (p.statusCode == 206)

/-- Function `singleDownload`, `main.go` lines 237-266: one unranged GET; error on
transport failure or non-200 status; otherwise `os.Create` then one
`io.Copy` of the body into the file.  Returns the error result and the
trace of calls made. -/
def singleDownload (env : Env) : Option DlErr × List Effect :=
  match env.singleResp with
  | none => (some .transport, [.unrangedReq])
  | some st =>
    if st ≠ 200 then (some (.badStatus st), [.unrangedReq])
    else
      if env.createOk then
        if env.copyOk then (none, [.unrangedReq, .fileCreate])
        else (some .copyFailed, [.unrangedReq, .fileCreate])
      else (some .createFailed, [.unrangedReq, .fileCreate])

/-- The retry loop of the chunk goroutine, `main.go` lines 164-179:
attempt `downloadPart`; on success stop; on failure increment `retries`,
stop once `retries > maxRetries`, otherwise sleep `retryBackoff` and try
again.  `idx` is the 0-based attempt counter and `rem` the number of
retries still allowed.  Returns the trace of ranged requests issued (one
per attempt, always for the same `[s, e]`), the list of sleep durations
taken (in seconds), and whether the chunk ultimately succeeded. -/
def chunkRun (ok : Nat → Bool) (s e : Int) : Nat → Nat → List Effect × List Nat × Bool
  | idx, 0 =>
    if ok idx then ([.rangedReq s e], [], true) else ([.rangedReq s e], [], false)
  | idx, rem + 1 =>
    if ok idx then ([.rangedReq s e], [], true)
    else
      let r := chunkRun ok s e (idx + 1) rem
      (.rangedReq s e :: r.1, retryBackoff :: r.2.1, r.2.2)

/-- Request trace of one chunk goroutine (attempts start at 0 with
`maxRetries` further retries allowed). -/
def chunkTrace (ok : Nat → Bool) (s e : Int) : List Effect :=
  (chunkRun ok s e 0 maxRetries).1

/-- Sleep durations taken by one chunk goroutine. -/
def chunkSleeps (ok : Nat → Bool) (s e : Int) : List Nat :=
  (chunkRun ok s e 0 maxRetries).2.1

/-- Whether one chunk goroutine ultimately succeeded. -/
def chunkSucceeded (ok : Nat → Bool) (s e : Int) : Bool :=
  (chunkRun ok s e 0 maxRetries).2.2

/-- The requests issued by all chunk goroutines of `downloadFile`
(lines 157-183), laid out in launch order. -/
def runChunks (env : Env) (plan : List (Int × Int)) : List Effect :=
  (plan.map fun c => chunkTrace (env.attemptOk c.1 c.2) c.1 c.2).flatten

/-- Function `downloadFile`, `main.go` lines 87-185: HEAD probe (transport error,
non-200 status, missing or unparseable `Content-Length` are fatal before
any file call); fall back to `singleDownload` when `Accept-Ranges` is not
`bytes` or the `bytes=0-1` test GET does not return 206; otherwise create
and pre-size the file, launch one retry-wrapped goroutine per chunk of
the plan, wait, and return `nil` — the chunk outcomes are not consulted. -/
def downloadFile (env : Env) (workersOverride : Int) : Option DlErr × List Effect :=
  match env.headResp with
  | none => (some .transport, [.headReq])
  | some resp =>
    if resp.statusCode ≠ 200 then (some (.badStatus resp.statusCode), [.headReq])
    else if resp.contentLength = "" then (some .missingLength, [.headReq])
    else
      match atoi resp.contentLength with
      | none => (some .invalidLength, [.headReq])
      | some size =>
        if resp.acceptRanges ≠ "bytes" then
          let r := singleDownload env
          (r.1, .headReq :: r.2)
        else
          match verifyPartialSupport env.probeResp with
          | none => (some .verifyFailed, [.headReq, .probeReq])
          | some supported =>
            if !supported then
              let r := singleDownload env
              (r.1, .headReq :: .probeReq :: r.2)
            else
              let workers := resolveWorkers size workersOverride
              if env.createOk then
                if env.truncateOk then
                  (none, .headReq :: .probeReq :: .fileCreate :: .fileTruncate size ::
                    runChunks env (chunkPlan size workers))
                else (some .truncateFailed, [.headReq, .probeReq, .fileCreate, .fileTruncate size])
              else (some .createFailed, [.headReq, .probeReq, .fileCreate])

/-- An environment whose server accepts the probes but fails every chunk
attempt: every chunk exhausts its retries. -/
def failEnv : Env :=
  { headResp := some ⟨200, "100", "bytes"⟩
    probeResp := some ⟨206, "bytes 0-1/100"⟩
    attemptOk := fun _ _ _ => false
    createOk := true, truncateOk := true
    singleResp := none, copyOk := true }

/-- End of a response body stream in `downloadPart`'s read loop: `io.EOF`
or a mid-stream transport error. -/
inductive BodyEnd where
  | eof : BodyEnd
  | ioErr : BodyEnd
  deriving DecidableEq, Repr

/-- Error results of `downloadPart` (`main.go` lines 187-235). -/
inductive PartErr where
  | transport : PartErr
  | badStatus (code : Nat) : PartErr
  | openFailed : PartErr
  | seekFailed : PartErr
  | writeFailed : PartErr
  | readFailed : PartErr
  deriving DecidableEq, Repr

/-- Response to one `downloadPart` ranged GET: status code, the sequence
of reads the body yields, and how the stream ends. -/
structure PartResp where
  statusCode : Nat
  reads : List (List Nat)
  bodyEnd : BodyEnd

/-- Environment of one `downloadPart` call: the response (`none` is a
transport error) and whether the file open, seek and writes succeed. -/
structure PartEnv where
  resp : Option PartResp
  openOk : Bool
  seekOk : Bool
  writeOk : Bool

/-- The read-write loop of `downloadPart`, `main.go` lines 217-233: read a
buffer; if `n > 0` write it (a failed write aborts) and add `n` to the
progress bar; `io.EOF` ends the loop with success, any other read error
aborts.  Returns the error result and the total byte count written. -/
def readLoop (writeOk : Bool) : List (List Nat) → BodyEnd → Option PartErr × Nat
  | [], .eof => (none, 0)
  | [], .ioErr => (some .readFailed, 0)
  | c :: rest, fin =>
    if 0 < c.length ∧ writeOk = false then (some .writeFailed, 0)
    else
      let r := readLoop writeOk rest fin
      (r.1, c.length + r.2)

/-- Function `downloadPart`, `main.go` lines 187-235: ranged GET for `[s, e]`; a
transport error or a status other than 206 aborts; otherwise open the
output file, seek to `s` and stream the body through `readLoop`.  No
check compares the received byte count with `e - s + 1`. -/
def downloadPart (env : PartEnv) (s e : Int) : Option PartErr × Nat :=
  match env.resp with
  | none => (some .transport, 0)
  | some resp =>
    if resp.statusCode ≠ 206 then (some (.badStatus resp.statusCode), 0)
    else if env.openOk = false then (some .openFailed, 0)
    else if env.seekOk = false then (some .seekFailed, 0)
    else readLoop env.writeOk resp.reads resp.bodyEnd

/-- Total number of bytes a body's reads deliver. -/
def totalBytes (reads : List (List Nat)) : Nat := (reads.map List.length).sum

/-- Whether an effect is a ranged chunk request. -/
def isRangedReq : Effect → Bool
  | .rangedReq _ _ => true
  | _ => false

/-- A test-probe response whose status is 206 but whose `Content-Range`
header is wrong for the request `bytes=0-1` of a 100-byte resource. -/
def liarProbe : ProbeResp := ⟨206, "bytes 5-9/100"⟩

/-- Environment advertising `Accept-Ranges: bytes` whose test-probe
response is `liarProbe` and which serves every chunk. -/
def liarEnv : Env :=
  { headResp := some ⟨200, "100", "bytes"⟩
    probeResp := some liarProbe
    attemptOk := fun _ _ _ => true
    createOk := true, truncateOk := true
    singleResp := some 200, copyOk := true }

/-- Spec-side definition, following the spec's words rather than the
code: the expected `Content-Range` value for the test request `bytes=0-1`
against a resource of `totalSize` bytes. -/
def specContentRangeOk (contentRange : String) (totalSize : Int) : Bool :=
  contentRange == "bytes 0-1/" ++ toString totalSize

/-- Spec-side definition, following the spec's words rather than the
code (§4.1): a server is range-capable only if it advertises
`Accept-Ranges: bytes` and the `bytes=0-1` test request returns status
206 with a correct content range. -/
def specRangeCapable (acceptRanges : String) (p : ProbeResp) (totalSize : Int) : Bool :=
  acceptRanges == "bytes" && p.statusCode == 206 &&
    specContentRangeOk p.contentRange totalSize

/-- Environment of a zero-byte resource whose server accepts both probes
and rejects every chunk attempt, as a conforming server rejects the
malformed header `Range: bytes=0--1` the degenerate chunk produces. -/
def emptyEnv : Env :=
  { headResp := some ⟨200, "0", "bytes"⟩
    probeResp := some ⟨206, ""⟩
    attemptOk := fun _ _ _ => false
    createOk := true, truncateOk := true
    singleResp := none, copyOk := true }

/-- C5: `calculateWorkers` returns 1 below 5 MB, 4 below 100 MB, 8 below
1 GB and 16 otherwise; it is monotone non-decreasing, and at the 5 MB
boundary it returns 4 while one byte below it returns 1. -/
theorem calculateWorkers_spec :
    (∀ s : Int, s < 5 * MB → calculateWorkers s = 1) ∧
    (∀ s : Int, 5 * MB ≤ s → s < 100 * MB → calculateWorkers s = 4) ∧
    (∀ s : Int, 100 * MB ≤ s → s < 1 * GB → calculateWorkers s = 8) ∧
    (∀ s : Int, 1 * GB ≤ s → calculateWorkers s = 16) ∧
    (∀ a b : Int, a ≤ b → calculateWorkers a ≤ calculateWorkers b) ∧
    calculateWorkers (5 * MB) = 4 ∧ calculateWorkers (5 * MB - 1) = 1 := by
  refine ⟨?_, ?_, ?_, ?_, ?_, by decide, by decide⟩ <;>
    intro a <;> simp only [calculateWorkers, MB, GB] <;> intros <;>
      split_ifs <;> omega

/-- Concrete instantiation of `calculateWorkers_spec`. -/
theorem calculateWorkers_spec_witness :
    calculateWorkers 0 = 1 ∧ calculateWorkers (5 * MB) ≤ calculateWorkers GB :=
  ⟨calculateWorkers_spec.1 0 (by decide),
   calculateWorkers_spec.2.2.2.2.1 (5 * MB) GB (by decide)⟩

/-- Structural facts about the retry loop `chunkRun`, for any starting
attempt index `idx` and remaining retry budget `rem`: at least one and at
most `rem + 1` attempts are made, every attempt requests the same range
`[s, e]`, exactly one `retryBackoff` sleep separates consecutive
attempts, the loop succeeds exactly when its last attempt does, and every
attempt before the last failed. -/
theorem chunkRun_props (ok : Nat → Bool) (s e : Int) :
    ∀ rem idx,
      1 ≤ (chunkRun ok s e idx rem).1.length ∧
      (chunkRun ok s e idx rem).1.length ≤ rem + 1 ∧
      (chunkRun ok s e idx rem).1 =
        List.replicate (chunkRun ok s e idx rem).1.length (.rangedReq s e) ∧
      (chunkRun ok s e idx rem).2.1 =
        List.replicate ((chunkRun ok s e idx rem).1.length - 1) retryBackoff ∧
      ((chunkRun ok s e idx rem).2.2 = true ↔
        ok (idx + (chunkRun ok s e idx rem).1.length - 1) = true) ∧
      (∀ d, d + 1 < (chunkRun ok s e idx rem).1.length → ok (idx + d) = false) := by
  intro rem
  induction rem with
  | zero =>
    intro idx
    by_cases h : ok idx = true <;>
      simp [chunkRun, h]
  | succ r ih =>
    intro idx
    by_cases h : ok idx = true
    · simp [chunkRun, h]
    · obtain ⟨ih1, ih2, ih3, ih4, ih5, ih6⟩ := ih (idx + 1)
      simp only [chunkRun, h, if_false, Bool.false_eq_true]
      set t := (chunkRun ok s e (idx + 1) r).1 with ht
      refine ⟨by simp, by simpa using ih2, ?_, ?_, ?_, ?_⟩
      · simp only [List.length_cons, List.replicate_succ, List.cons.injEq, true_and]
        exact ih3
      · simp only [List.length_cons]
        have hlen : t.length + 1 - 1 = (t.length - 1) + 1 := by omega
        rw [hlen, List.replicate_succ]
        simp only [List.cons.injEq, true_and]
        exact ih4
      · simp only [List.length_cons]
        have harg : idx + 1 + t.length - 1 = idx + (t.length + 1) - 1 := by omega
        rw [harg] at ih5
        exact ih5
      · intro d hd
        simp only [List.length_cons] at hd
        match d with
        | 0 => simpa using h
        | d' + 1 =>
          have : ok (idx + 1 + d') = false := ih6 d' (by omega)
          have harg : idx + 1 + d' = idx + (d' + 1) := by omega
          rwa [harg] at this

/-- C4: each chunk's retry wrapper performs at most `maxRetries + 1`
attempts, each attempt re-requests the same full sub-range `[s, e]`, the
sleeps between consecutive attempts are each the fixed `retryBackoff`
(2 seconds) and number one fewer than the attempts, the loop succeeds
exactly when some attempt within the budget succeeds, and every attempt
before the last one failed (it stops at the first success). -/
theorem retrySupervisor_spec (ok : Nat → Bool) (s e : Int) :
    (chunkTrace ok s e).length ≤ maxRetries + 1 ∧
    chunkTrace ok s e =
      List.replicate (chunkTrace ok s e).length (.rangedReq s e) ∧
    chunkSleeps ok s e =
      List.replicate ((chunkTrace ok s e).length - 1) retryBackoff ∧
    (chunkSucceeded ok s e = true ↔
      ∃ k < (chunkTrace ok s e).length, ok k = true) ∧
    (∀ k, k + 1 < (chunkTrace ok s e).length → ok k = false) := by
  obtain ⟨h1, h2, h3, h4, h5, h6⟩ := chunkRun_props ok s e maxRetries 0
  simp only [Nat.zero_add] at h5 h6
  refine ⟨h2, h3, h4, ?_, h6⟩
  unfold chunkSucceeded chunkTrace
  rw [h5]
  constructor
  · intro hlast
    exact ⟨(chunkRun ok s e 0 maxRetries).1.length - 1, by omega, hlast⟩
  · rintro ⟨k, hk, hok⟩
    by_contra hne
    rcases Nat.lt_or_ge (k + 1) (chunkRun ok s e 0 maxRetries).1.length with hlt | hge
    · rw [h6 k hlt] at hok
      exact absurd hok (by simp)
    · have : k = (chunkRun ok s e 0 maxRetries).1.length - 1 := by omega
      rw [this] at hok
      exact hne hok

/-- Concrete instantiation of `retrySupervisor_spec`: an attempt oracle
that succeeds on the third attempt. -/
theorem retrySupervisor_spec_witness :
    (chunkTrace (fun k => k == 2) 0 9).length ≤ maxRetries + 1 ∧
    chunkSucceeded (fun k => k == 2) 0 9 = true := by
  obtain ⟨h1, _, _, h4, _⟩ := retrySupervisor_spec (fun k => k == 2) 0 9
  exact ⟨h1, h4.mpr ⟨2, by decide, by decide⟩⟩

/-- C1 (code bug): in `failEnv` the single planned chunk `[0, 99]` fails
all `maxRetries + 1` attempts — it exhausts its retries — yet
`downloadFile` still returns `nil` (no error), so the caller prints the
success message and the process exits 0.  The chunk goroutines' outcomes
are never aggregated: `downloadFile` returns `nil` unconditionally after
`wg.Wait()` (`main.go` line 184). -/
theorem downloadFile_swallows_chunk_failure :
    chunkPlan 100 (resolveWorkers 100 0) = [(0, 99)] ∧
    chunkSucceeded (failEnv.attemptOk 0 99) 0 99 = false ∧
    (chunkTrace (failEnv.attemptOk 0 99) 0 99).length = maxRetries + 1 ∧
    (downloadFile failEnv 0).1 = none := by decide

theorem chunkPlan_length (size workers : Int) :
    (chunkPlan size workers).length = workers.toNat := by
  simp [chunkPlan]

theorem chunkPlan_get (size workers : Int) (i : Fin (chunkPlan size workers).length) :
    (chunkPlan size workers).get i = chunkOf size workers i.1 := by
  simp [chunkPlan]

theorem chunkOf_mem_iff (s w p : Nat) (hw : 1 ≤ w) (hp : s / w = p) (i : Nat) (hi : i < w)
    (j : Int) :
    memRange (chunkOf (s : Int) (w : Int) i) j ↔
      (i : Int) * (p : Int) ≤ j ∧
        (if i = w - 1 then j < (s : Int) else j < ((i : Int) + 1) * (p : Int)) := by
  subst hp
  unfold chunkOf memRange
  have hdiv : Int.tdiv (s : Int) (w : Int) = ((s / w : Nat) : Int) := (Int.ofNat_tdiv s w).symm
  simp only [hdiv]
  by_cases hc : i = w - 1
  · rw [if_pos hc, if_pos (by omega)]
    constructor <;> rintro ⟨a, b⟩ <;> exact ⟨a, by omega⟩
  · rw [if_neg hc, if_neg (by omega)]
    have hd : ((i : Int) + 1) * ((s / w : Nat) : Int) =
        (i : Int) * ((s / w : Nat) : Int) + ((s / w : Nat) : Int) := by ring
    constructor <;> rintro ⟨a, b⟩ <;> exact ⟨a, by omega⟩

theorem chunkPlan_covers (s w : Nat) (hw : 1 ≤ w) (j : Int) :
    (∃ i, i < w ∧ memRange (chunkOf (s : Int) (w : Int) i) j) ↔ 0 ≤ j ∧ j < (s : Int) := by
  obtain ⟨p, hp⟩ : ∃ p, s / w = p := ⟨s / w, rfl⟩
  have hwp : w * p ≤ s := by
    rw [Nat.mul_comm]
    exact hp ▸ Nat.div_mul_le_self s w
  constructor
  · rintro ⟨i, hi, hmem⟩
    rw [chunkOf_mem_iff s w p hw hp i hi j] at hmem
    obtain ⟨h1, h2⟩ := hmem
    have h0 : (0 : Int) ≤ (i : Int) * (p : Int) := by positivity
    refine ⟨le_trans h0 h1, ?_⟩
    by_cases hc : i = w - 1
    · rw [if_pos hc] at h2
      exact h2
    · rw [if_neg hc] at h2
      have hN : (i + 1) * p ≤ s :=
        le_trans (Nat.mul_le_mul (by omega : i + 1 ≤ w) (Nat.le_refl p)) hwp
      have hcast : ((i : Int) + 1) * (p : Int) ≤ (s : Int) := by exact_mod_cast hN
      exact lt_of_lt_of_le h2 hcast
  · rintro ⟨hj0, hjs⟩
    by_cases hcase : j < ((w - 1 : Nat) : Int) * (p : Int)
    · have hp0 : 0 < p := by
        by_contra h0
        have hz : p = 0 := by omega
        rw [hz] at hcase
        simp at hcase
        omega
      obtain ⟨jn, rfl⟩ : ∃ jn : Nat, j = (jn : Int) := ⟨j.toNat, (Int.toNat_of_nonneg hj0).symm⟩
      have hjnlt : jn < (w - 1) * p := by exact_mod_cast hcase
      obtain ⟨q, hq⟩ : ∃ q, jn / p = q := ⟨jn / p, rfl⟩
      have hle : q * p ≤ jn := hq ▸ Nat.div_mul_le_self jn p
      have hlt : jn < q * p + p := by
        have h1 := Nat.div_add_mod jn p
        rw [hq] at h1
        have h2 := Nat.mod_lt jn hp0
        have h3 : p * q = q * p := Nat.mul_comm p q
        omega
      have hqw : q < w - 1 :=
        (Nat.mul_lt_mul_right hp0).mp (lt_of_le_of_lt hle hjnlt)
      refine ⟨q, by omega, ?_⟩
      rw [chunkOf_mem_iff s w p hw hp q (by omega) (jn : Int), if_neg (by omega)]
      refine ⟨by exact_mod_cast hle, ?_⟩
      have hlt2 : jn < (q + 1) * p := by
        have h3 : (q + 1) * p = q * p + p := by ring
        omega
      exact_mod_cast hlt2
    · refine ⟨w - 1, by omega, ?_⟩
      rw [chunkOf_mem_iff s w p hw hp _ (by omega) j, if_pos rfl]
      exact ⟨not_lt.mp hcase, hjs⟩

theorem chunkOf_disjoint (s w : Nat) (hw : 1 ≤ w) (i k : Nat) (hik : i < k) (hkw : k < w)
    (j : Int) (h1 : memRange (chunkOf (s : Int) (w : Int) i) j)
    (h2 : memRange (chunkOf (s : Int) (w : Int) k) j) : False := by
  obtain ⟨p, hp⟩ : ∃ p, s / w = p := ⟨s / w, rfl⟩
  rw [chunkOf_mem_iff s w p hw hp i (by omega) j, if_neg (by omega)] at h1
  rw [chunkOf_mem_iff s w p hw hp k (by omega) j] at h2
  have hN : (i + 1) * p ≤ k * p := Nat.mul_le_mul (by omega : i + 1 ≤ k) (Nat.le_refl p)
  have hle : ((i : Int) + 1) * (p : Int) ≤ (k : Int) * (p : Int) := by exact_mod_cast hN
  have hcontra := lt_of_lt_of_le h1.2 hle
  exact absurd h2.1 (not_le.mpr hcontra)



/-- C2 (amended): for `totalSize ≥ 0` and `workers ≥ 1` the plan has
exactly `workers` chunks (even when `totalSize < workers`), the union of
the ranges is exactly `[0, totalSize - 1]`, and chunks at distinct
indices never share a byte. -/
theorem chunkPlan_partition (size workers : Int) (hs : 0 ≤ size) (hw : 1 ≤ workers) :
    (chunkPlan size workers).length = workers.toNat ∧
    (∀ j : Int, (∃ c ∈ chunkPlan size workers, memRange c j) ↔ 0 ≤ j ∧ j ≤ size - 1) ∧
    ∀ (i k : Fin (chunkPlan size workers).length), i ≠ k → ∀ j : Int,
      memRange ((chunkPlan size workers).get i) j →
        ¬ memRange ((chunkPlan size workers).get k) j := by
  obtain ⟨s, rfl⟩ : ∃ s : Nat, size = (s : Int) := ⟨size.toNat, (Int.toNat_of_nonneg hs).symm⟩
  obtain ⟨w, rfl⟩ : ∃ w : Nat, workers = (w : Int) :=
    ⟨workers.toNat, (Int.toNat_of_nonneg (by omega)).symm⟩
  have hw1 : 1 ≤ w := by exact_mod_cast hw
  refine ⟨chunkPlan_length _ _, ?_, ?_⟩
  · intro j
    have hiff : (∃ c ∈ chunkPlan (s : Int) (w : Int), memRange c j) ↔
        ∃ i, i < w ∧ memRange (chunkOf (s : Int) (w : Int) i) j := by
      constructor
      · rintro ⟨c, hc, hmc⟩
        rw [chunkPlan, List.mem_map] at hc
        obtain ⟨i, hi, rfl⟩ := hc
        rw [List.mem_range, Int.toNat_natCast] at hi
        exact ⟨i, hi, hmc⟩
      · rintro ⟨i, hi, hmc⟩
        refine ⟨chunkOf (s : Int) (w : Int) i, ?_, hmc⟩
        rw [chunkPlan, List.mem_map]
        refine ⟨i, ?_, rfl⟩
        rw [List.mem_range, Int.toNat_natCast]
        exact hi
    rw [hiff, chunkPlan_covers s w hw1 j]
    omega
  · intro i k hik j hmi hmk
    rw [chunkPlan_get] at hmi hmk
    have hlen : (chunkPlan (s : Int) (w : Int)).length = w := by
      rw [chunkPlan_length, Int.toNat_natCast]
    have hiw : i.1 < w := by have h2 := i.2; omega
    have hkw : k.1 < w := by have h2 := k.2; omega
    rcases Nat.lt_or_ge i.1 k.1 with h | h
    · exact chunkOf_disjoint s w hw1 i.1 k.1 h hkw j hmi hmk
    · have h2 : k.1 < i.1 := by
        rcases Nat.eq_or_lt_of_le h with he | hlt2
        · exact absurd (Fin.ext he.symm) hik
        · exact hlt2
      exact chunkOf_disjoint s w hw1 k.1 i.1 h2 hiw j hmk hmi

/-- C2 (counterexample): for `totalSize = 2 < workers = 5` the code
produces 5 chunks (4 of them the degenerate range `[0, -1]`), not
`min workers totalSize = 2` as the claim states. -/
theorem chunkPlan_count_counterexample :
    (chunkPlan 2 5).length = 5 ∧ (chunkPlan 2 5).length ≠ min 5 2 ∧
      chunkPlan 2 5 = [(0, -1), (0, -1), (0, -1), (0, -1), (0, 1)] := by decide

/-- Concrete instantiation of `chunkPlan_partition` at size 10, 4 workers. -/
theorem chunkPlan_partition_witness :
    (chunkPlan 10 4).length = (4 : Int).toNat ∧ (0 ≤ (7 : Int) ∧ (7 : Int) ≤ 10 - 1) := by
  obtain ⟨h1, h2, h3⟩ := chunkPlan_partition 10 4 (by decide) (by decide)
  exact ⟨h1, (h2 7).mp (by decide)⟩

theorem readLoop_eof (reads : List (List Nat)) :
    readLoop true reads BodyEnd.eof = (none, totalBytes reads) := by
  induction reads with
  | nil => rfl
  | cons c rest ih => simp [readLoop, totalBytes, ih]

/-- C6: a 206 response whose body stream ends in `io.EOF` with no
transport or write error makes `downloadPart` report success with exactly
the bytes the body delivered, even when that is fewer than `e - s + 1`:
no check compares the received count to the requested range, so a
truncated body is reported as a completed chunk (the rest of its range
keeps the pre-sized zeros). -/
theorem downloadPart_accepts_short_body (s e : Int) (reads : List (List Nat))
    (hshort : (totalBytes reads : Int) < e - s + 1) :
    downloadPart ⟨some ⟨206, reads, .eof⟩, true, true, true⟩ s e = (none, totalBytes reads) := by
  simp [downloadPart, readLoop_eof]

/-- Concrete instantiation of `downloadPart_accepts_short_body`: a chunk
asked for 10 bytes whose body delivers only 3. -/
theorem downloadPart_accepts_short_body_witness :
    downloadPart ⟨some ⟨206, [[1, 2, 3]], .eof⟩, true, true, true⟩ 0 9 = (none, 3) := by
  have h := downloadPart_accepts_short_body 0 9 [[1, 2, 3]] (by decide)
  simpa [totalBytes] using h

/-- C8: any probe-stage failure — transport error on the HEAD, non-200
status, missing or unparseable `Content-Length` — makes `downloadFile`
return an error with a trace containing only the HEAD request: no call
that creates or modifies the destination file was made. -/
theorem probe_failure_no_file (env : Env) (o : Int)
    (h : env.headResp = none ∨
      ∃ r, env.headResp = some r ∧
        (r.statusCode ≠ 200 ∨ r.contentLength = "" ∨ atoi r.contentLength = none)) :
    (downloadFile env o).1.isSome ∧ (downloadFile env o).2 = [.headReq] := by
  rcases h with h | ⟨r, hr, hcase⟩
  · simp [downloadFile, h]
  · rcases hcase with h1 | h1 | h1
    · simp [downloadFile, hr, h1]
    · by_cases hst : r.statusCode = 200
      · simp [downloadFile, hr, hst, h1]
      · simp [downloadFile, hr, hst]
    · by_cases hst : r.statusCode = 200
      · by_cases hcl : r.contentLength = ""
        · simp [downloadFile, hr, hst, hcl]
        · simp [downloadFile, hr, hst, hcl, h1]
      · simp [downloadFile, hr, hst]

/-- Concrete instantiation of `probe_failure_no_file`: a 500 HEAD status. -/
theorem probe_failure_no_file_witness :
    (downloadFile ⟨some ⟨500, "100", "bytes"⟩, none, fun _ _ _ => false, true, true, none, true⟩
        0).1.isSome ∧
      (downloadFile ⟨some ⟨500, "100", "bytes"⟩, none, fun _ _ _ => false, true, true, none, true⟩
        0).2 = [.headReq] :=
  probe_failure_no_file _ 0 (Or.inr ⟨_, rfl, Or.inl (by decide)⟩)

/-- C9: the single-stream fallback performs exactly one unranged GET
(followed by a fresh `os.Create` exactly when the status check passed),
and it succeeds iff the status was 200 and the file creation and the body
copy both succeeded — any error is immediately terminal, with no retry
around this path. -/
theorem singleDownload_spec (env : Env) :
    (singleDownload env).2 =
      (if env.singleResp = some 200 then [.unrangedReq, .fileCreate] else [.unrangedReq]) ∧
    ((singleDownload env).1 = none ↔
      env.singleResp = some 200 ∧ env.createOk = true ∧ env.copyOk = true) := by
  unfold singleDownload
  rcases h : env.singleResp with _ | st
  · simp [h]
  · by_cases hst : st = 200
    · subst hst
      cases hc : env.createOk <;> cases hk : env.copyOk <;> simp [h]
    · simp [h, hst]

/-- C10: a non-positive `--worker` override makes `downloadFile` behave
exactly as with override 0 (the size heuristic decides), while a strictly
positive override is used verbatim — even when it exceeds the total
size. -/
theorem workersOverride_spec (env : Env) (size o : Int) :
    (o ≤ 0 → downloadFile env o = downloadFile env 0 ∧
      resolveWorkers size o = resolveWorkers size 0) ∧
    (0 < o → resolveWorkers size o = o) := by
  constructor
  · intro ho
    have hres : ∀ s : Int, resolveWorkers s o = resolveWorkers s 0 := by
      intro s
      unfold resolveWorkers
      rw [if_neg (by omega), if_neg (by omega)]
    constructor
    · simp only [downloadFile, hres]
    · exact hres size
  · intro ho
    unfold resolveWorkers
    rw [if_pos ho]

/-- Concrete instantiation of `workersOverride_spec`: override `-2`
behaves like 0, and override 7 is used verbatim for a 2-byte resource. -/
theorem workersOverride_spec_witness :
    downloadFile ⟨none, none, fun _ _ _ => false, true, true, none, true⟩ (-2) =
        downloadFile ⟨none, none, fun _ _ _ => false, true, true, none, true⟩ 0 ∧
      resolveWorkers 2 7 = 7 :=
  ⟨((workersOverride_spec ⟨none, none, fun _ _ _ => false, true, true, none, true⟩ 2 (-2)).1
      (by decide)).1,
   (workersOverride_spec ⟨none, none, fun _ _ _ => false, true, true, none, true⟩ 2 7).2
      (by decide)⟩

theorem unranged_mem_singleDownload (env : Env) :
    Effect.unrangedReq ∈ (singleDownload env).2 := by
  unfold singleDownload
  rcases env.singleResp with _ | st
  · simp
  · by_cases hst : st = 200
    · subst hst
      cases env.createOk <;> cases env.copyOk <;> simp
    · simp [hst]

theorem mem_chunkTrace_eq (ok : Nat → Bool) (s e : Int) (x : Effect)
    (hx : x ∈ chunkTrace ok s e) : x = Effect.rangedReq s e := by
  have h := (chunkRun_props ok s e maxRetries 0).2.2.1
  rw [chunkTrace] at hx
  rw [h] at hx
  exact List.eq_of_mem_replicate hx

theorem unranged_not_mem_runChunks (env : Env) (plan : List (Int × Int)) :
    Effect.unrangedReq ∉ runChunks env plan := by
  intro hmem
  rw [runChunks, List.mem_flatten] at hmem
  obtain ⟨l, hl, hx⟩ := hmem
  rw [List.mem_map] at hl
  obtain ⟨c, _, rfl⟩ := hl
  exact absurd (mem_chunkTrace_eq _ _ _ _ hx) (by simp)

/-- C3 (amended): given a HEAD that passed (status 200, parseable
`Content-Length`) and a test-probe response, the code downgrades to the
single-stream fallback (an unranged GET appears in the trace) exactly
when `Accept-Ranges` is not `bytes` or the test status is not 206; the
`Content-Range` header of the test response is never inspected. -/
theorem range_capability_decision (hd : HeadResp) (p : ProbeResp)
    (att : Int → Int → Nat → Bool) (co tr cp : Bool) (sr : Option Nat) (o : Int)
    (hst : hd.statusCode = 200) (hne : hd.contentLength ≠ "")
    (hcl : (atoi hd.contentLength).isSome) :
    Effect.unrangedReq ∈ (downloadFile ⟨some hd, some p, att, co, tr, sr, cp⟩ o).2 ↔
      ¬(hd.acceptRanges = "bytes" ∧ p.statusCode = 206) := by
  obtain ⟨size, hsize⟩ := Option.isSome_iff_exists.mp hcl
  by_cases har : hd.acceptRanges = "bytes"
  · by_cases hps : p.statusCode = 206
    · simp only [downloadFile, hst, hsize, hne, har, hps, verifyPartialSupport]
      simp only [har, hps, ne_eq, not_true_eq_false, if_false, ite_false, and_self,
        not_true_eq_false, iff_false]
      simp [unranged_not_mem_runChunks, har, hps]
      cases co <;> cases tr <;>
        simp [unranged_not_mem_runChunks]
    · simp only [downloadFile, hst, hsize, hne, har, verifyPartialSupport]
      have hbe : (p.statusCode == 206) = false := by
        simpa using hps
      simp [hbe, har, hps, unranged_mem_singleDownload]
  · simp only [downloadFile, hst, hsize, hne]
    simp [har, unranged_mem_singleDownload]

/-- C3 (counterexample): a server advertising `Accept-Ranges: bytes`
whose `bytes=0-1` test response has status 206 but an incorrect
`Content-Range` (`bytes 5-9/100`) is still treated as range-capable:
`verifyPartialSupport` reports support and `downloadFile` takes the
ranged path (pre-sizing the file, issuing no fallback unranged GET),
although the spec-side capability predicate rejects this server. -/
theorem verify_ignores_content_range :
    verifyPartialSupport (some liarProbe) = some true ∧
    specRangeCapable "bytes" liarProbe 100 = false ∧
    Effect.fileTruncate 100 ∈ (downloadFile liarEnv 0).2 ∧
    Effect.unrangedReq ∉ (downloadFile liarEnv 0).2 := by decide

/-- Concrete instantiation of `range_capability_decision`: a server not
advertising ranges is downgraded to the fallback. -/
theorem range_capability_decision_witness :
    Effect.unrangedReq ∈
      (downloadFile ⟨some ⟨200, "50", "none"⟩, some ⟨206, ""⟩, fun _ _ _ => true, true, true,
        some 200, true⟩ 0).2 := by
  have h := range_capability_decision ⟨200, "50", "none"⟩ ⟨206, ""⟩ (fun _ _ _ => true)
    true true true (some 200) 0 rfl (by decide) (by decide)
  exact h.mpr (by decide)

/-- C7 (counterexample): for a zero-byte resource the planner does yield
the single zero-length chunk `[0, -1]`, but that chunk is not immediately
complete: the goroutine still issues ranged GETs for it (the malformed
`Range: bytes=0--1`), and against a server that rejects them all it
performs all `maxRetries + 1` attempts before giving up. -/
theorem empty_resource_counterexample :
    chunkPlan 0 (resolveWorkers 0 0) = [(0, -1)] ∧
    (downloadFile emptyEnv 0).2.filter isRangedReq ≠ [] ∧
    ((downloadFile emptyEnv 0).2.filter isRangedReq).length = maxRetries + 1 := by decide

/-- C7 (amended): for `totalSize = 0` the heuristic resolves to 1 worker
and the plan is the single zero-length chunk `[0, -1]`; whatever the
server answers for that chunk, `downloadFile` returns success and the
destination file was created and truncated to 0 bytes — but the chunk is
still fetched (at least one ranged request for `[0, -1]` is issued),
rather than being immediately complete. -/
theorem downloadFile_empty_resource (att : Int → Int → Nat → Bool) (cr : String) :
    resolveWorkers 0 0 = 1 ∧
    chunkPlan 0 1 = [(0, -1)] ∧
    (downloadFile ⟨some ⟨200, "0", "bytes"⟩, some ⟨206, cr⟩, att, true, true, none, true⟩ 0).1 =
      none ∧
    (downloadFile ⟨some ⟨200, "0", "bytes"⟩, some ⟨206, cr⟩, att, true, true, none, true⟩ 0).2 =
      .headReq :: .probeReq :: .fileCreate :: .fileTruncate 0 ::
        chunkTrace (att 0 (-1)) 0 (-1) ∧
    1 ≤ (chunkTrace (att 0 (-1)) 0 (-1)).length := by
  have h0 : atoi "0" = some 0 := by decide
  have hplan : chunkPlan 0 (resolveWorkers 0 0) = [(0, -1)] := by decide
  refine ⟨by decide, by decide, ?_, ?_, (chunkRun_props (att 0 (-1)) 0 (-1) maxRetries 0).1⟩
  · simp [downloadFile, h0, verifyPartialSupport]
  · simp [downloadFile, h0, verifyPartialSupport, hplan, runChunks]

/-- Concrete instantiation of `singleDownload_spec`: a 200 response with
working file and copy operations. -/
theorem singleDownload_spec_witness :
    (singleDownload liarEnv).1 = none ∧
      (singleDownload liarEnv).2 = [.unrangedReq, .fileCreate] := by
  obtain ⟨h1, h2⟩ := singleDownload_spec liarEnv
  exact ⟨h2.mpr ⟨rfl, rfl, rfl⟩, by simpa using h1⟩

/-- Concrete instantiation of `downloadFile_empty_resource`: a rejecting
server, matching `emptyEnv`. -/
theorem downloadFile_empty_resource_witness :
    (downloadFile ⟨some ⟨200, "0", "bytes"⟩, some ⟨206, ""⟩, fun _ _ _ => false, true, true,
        none, true⟩ 0).1 = none :=
  (downloadFile_empty_resource (fun _ _ _ => false) "").2.2.1

end SDM
